import Mathlib

/-!
Verification development for the AI-FACT inversion-attacker pipeline
(src/models/attackers/inversion_attacker_1.py, src/train_attacker.py,
src/dataloaders/cifar100_loader.py).

Tensors are modelled as a shape [B, C, H, W] together with a total data
function into the rationals; PyTorch layers become functions on this type,
returning Except String when the library would raise (channel mismatches,
too-small spatial sizes, bad tuple unpacking, bad indexing).
-/

/-- A 4-dimensional tensor: batch, channel, height, width plus the values.
The data function is total; entries outside the shape are irrelevant. -/
structure Tensor4 where
  B : ℕ
  C : ℕ
  H : ℕ
  W : ℕ
  data : ℕ → ℕ → ℕ → ℕ → ℚ

/-- Weights and bias of a single convolution layer. -/
structure ConvParams where
  weight : ℕ → ℕ → ℕ → ℕ → ℚ
  bias : ℕ → ℚ

/-- Zero-padding read access used by padded convolutions: the input extended
by zeros outside its spatial extent. -/
def paddedAt (x : Tensor4) (b c : ℕ) (i j : ℤ) : ℚ :=
  if 0 ≤ i ∧ i < (x.H : ℤ) ∧ 0 ≤ j ∧ j < (x.W : ℤ) then
    x.data b c i.toNat j.toNat
  else 0

/-- nn.Conv2d(inC, outC, k, padding=pad), stride 1.  Raises when the input
channel count does not match or the padded input is smaller than the kernel
(as torch does).  Output spatial size is H + 2*pad - k + 1. -/
def conv2d (inC outC k pad : ℕ) (p : ConvParams) (x : Tensor4) :
    Except String Tensor4 :=
  if x.C = inC ∧ k ≤ x.H + 2 * pad ∧ k ≤ x.W + 2 * pad then
    .ok ⟨x.B, outC, x.H + 2 * pad + 1 - k, x.W + 2 * pad + 1 - k,
      fun b o i j =>
        p.bias o + ∑ c ∈ Finset.range inC, ∑ di ∈ Finset.range k,
          ∑ dj ∈ Finset.range k,
            p.weight o c di dj *
              paddedAt x b c ((i : ℤ) + di - pad) ((j : ℤ) + dj - pad)⟩
  else .error "RuntimeError: conv2d shape mismatch"

/-- nn.ReLU applied elementwise; shape preserved. -/
def reluT (x : Tensor4) : Tensor4 :=
  ⟨x.B, x.C, x.H, x.W, fun b c i j => max (x.data b c i j) 0⟩

/-- nn.MaxPool2d(2): kernel 2, stride 2, floor mode.  torch raises when the
computed output size would be zero, i.e. when a spatial dim is below 2. -/
def maxPool2 (x : Tensor4) : Except String Tensor4 :=
  if 2 ≤ x.H ∧ 2 ≤ x.W then
    .ok ⟨x.B, x.C, x.H / 2, x.W / 2,
      fun b c i j =>
        max (max (x.data b c (2 * i) (2 * j)) (x.data b c (2 * i) (2 * j + 1)))
            (max (x.data b c (2 * i + 1) (2 * j)) (x.data b c (2 * i + 1) (2 * j + 1)))⟩
  else .error "RuntimeError: max_pool2d output size too small"

/-- nn.ConvTranspose2d(inC, outC, 2, 2): kernel 2, stride 2; doubles the
spatial size.  Weight layout is [in, out, kh, kw]. -/
def convTranspose2 (inC outC : ℕ) (p : ConvParams) (x : Tensor4) :
    Except String Tensor4 :=
  if x.C = inC ∧ 1 ≤ x.H ∧ 1 ≤ x.W then
    .ok ⟨x.B, outC, 2 * x.H, 2 * x.W,
      fun b o i j =>
        p.bias o + ∑ c ∈ Finset.range inC,
          p.weight c o (i % 2) (j % 2) * x.data b c (i / 2) (j / 2)⟩
  else .error "RuntimeError: conv_transpose2d shape mismatch"

/-- nn.ConvTranspose2d(inC, outC, 1): kernel 1, stride 1; spatial size kept. -/
def convTranspose1 (inC outC : ℕ) (p : ConvParams) (x : Tensor4) :
    Except String Tensor4 :=
  if x.C = inC ∧ 1 ≤ x.H ∧ 1 ≤ x.W then
    .ok ⟨x.B, outC, x.H, x.W,
      fun b o i j =>
        p.bias o + ∑ c ∈ Finset.range inC, p.weight c o 0 0 * x.data b c i j⟩
  else .error "RuntimeError: conv_transpose2d shape mismatch"

/-- torch.cat([x, y], dim=1): concatenation along channels; torch requires all
other dimensions to agree. -/
def catC (x y : Tensor4) : Except String Tensor4 :=
  if x.B = y.B ∧ x.H = y.H ∧ x.W = y.W then
    .ok ⟨x.B, x.C + y.C, x.H, x.W,
      fun b c i j =>
        if c < x.C then x.data b c i j else y.data b (c - x.C) i j⟩
  else .error "RuntimeError: torch.cat size mismatch"

/-- F.interpolate(x, (h, w)) and nn.Upsample(size=(h, w)) in their default
nearest mode: source index is floor(dst * in / out). -/
def interpolateNearest (sz : ℕ × ℕ) (x : Tensor4) : Tensor4 :=
  ⟨x.B, x.C, sz.1, sz.2,
    fun b c i j => x.data b c (i * x.H / sz.1) (j * x.W / sz.2)⟩

/-- nn.MSELoss(reduction=mean) on same-shape tensors: mean of squared
elementwise differences, ranging over the first argument's shape. -/
def mseLoss (a x : Tensor4) : ℚ :=
  (∑ b ∈ Finset.range a.B, ∑ c ∈ Finset.range a.C, ∑ i ∈ Finset.range a.H,
      ∑ j ∈ Finset.range a.W, (a.data b c i j - x.data b c i j) ^ 2) /
    ((a.B * a.C * a.H * a.W : ℕ) : ℚ)

/-- Zero padding of the spatial dims by given left/top/right/bottom margins
(torchvision F.pad with fill=0). -/
def padZero (padL padT padR padB : ℕ) (x : Tensor4) : Tensor4 :=
  ⟨x.B, x.C, x.H + padT + padB, x.W + padL + padR,
    fun b c i j =>
      if padT ≤ i ∧ i < padT + x.H ∧ padL ≤ j ∧ j < padL + x.W then
        x.data b c (i - padT) (j - padL)
      else 0⟩

/-- torchvision functional.crop(img, top, left, h, w): the h-by-w window whose
top-left corner is at (top, left). -/
def cropTL (top left h w : ℕ) (x : Tensor4) : Tensor4 :=
  ⟨x.B, x.C, h, w, fun b c i j => x.data b c (i + top) (j + left)⟩

/-- Python int(round(d / 2.0)) for a natural d: round half to even. -/
def halfRoundEven (d : ℕ) : ℕ :=
  if d % 2 = 0 then d / 2
  else if (d / 2) % 2 = 0 then d / 2 else d / 2 + 1

/-- The zero-padded image built by torchvision center_crop when the crop size
exceeds the image size on some dim: left/top get floor of the deficit over 2,
right/bottom the remainder. -/
def centerCropPadded (ch cw : ℕ) (x : Tensor4) : Tensor4 :=
  padZero (if x.W < cw then (cw - x.W) / 2 else 0)
          (if x.H < ch then (ch - x.H) / 2 else 0)
          (if x.W < cw then (cw - x.W + 1) / 2 else 0)
          (if x.H < ch then (ch - x.H + 1) / 2 else 0) x

/-- torchvision.transforms.CenterCrop([ch, cw]): if the image is smaller than
the crop size on a dim, it is first zero-padded; if the padded image matches
the crop size exactly it is returned; otherwise the centered window is
cropped with top-left offsets round((size - crop)/2). -/
def center_crop (ch cw : ℕ) (x : Tensor4) : Tensor4 :=
  if x.H < ch ∨ x.W < cw then
    if (centerCropPadded ch cw x).H = ch ∧ (centerCropPadded ch cw x).W = cw then
      centerCropPadded ch cw x
    else
      cropTL (halfRoundEven ((centerCropPadded ch cw x).H - ch))
        (halfRoundEven ((centerCropPadded ch cw x).W - cw)) ch cw
        (centerCropPadded ch cw x)
  else cropTL (halfRoundEven (x.H - ch)) (halfRoundEven (x.W - cw)) ch cw x

/-- Decoder.crop (inversion_attacker_1.py lines 85-88): align the encoder
feature to the spatial size of the running tensor x via CenterCrop. -/
def decoderCrop (enc_ftrs x : Tensor4) : Tensor4 :=
  center_crop x.H x.W enc_ftrs

/-- Python list indexing l[i], raising IndexError when out of range. -/
def listIdx {α : Type} (l : List α) (i : ℕ) : Except String α :=
  match l.get? i with
  | some a => .ok a
  | none => .error "IndexError: list index out of range"

/-- Parameters of one Block (inversion_attacker_1.py lines 34-52): six 3x3
same-padding convolutions; ReLU after each of the first five, none after the
last. -/
structure BlockParams where
  c1 : ConvParams
  c2 : ConvParams
  c3 : ConvParams
  c4 : ConvParams
  c5 : ConvParams
  c6 : ConvParams

/-- Block.forward: Conv-ReLU five times, then a final Conv with no ReLU. -/
def blockForward (inC outC : ℕ) (p : BlockParams) (x : Tensor4) :
    Except String Tensor4 := do
  let x1 ← conv2d inC outC 3 1 p.c1 x
  let x2 ← conv2d outC outC 3 1 p.c2 (reluT x1)
  let x3 ← conv2d outC outC 3 1 p.c3 (reluT x2)
  let x4 ← conv2d outC outC 3 1 p.c4 (reluT x3)
  let x5 ← conv2d outC outC 3 1 p.c5 (reluT x4)
  conv2d outC outC 3 1 p.c6 (reluT x5)

/-- Encoder.forward (lines 61-67) on the channel schedule chs: per stage run
the Block, record its output, then max-pool (the pooled value after the last
stage is computed and discarded, exactly as in the source loop).  The index
argument selects each stage's Block parameters. -/
def encoderForward : List ℕ → (ℕ → BlockParams) → ℕ → Tensor4 →
    Except String (List Tensor4)
  | cIn :: cOut :: rest, ps, i, x => do
      let y ← blockForward cIn cOut (ps i) x
      let xp ← maxPool2 y
      let tl ← encoderForward (cOut :: rest) ps (i + 1) xp
      .ok (y :: tl)
  | _, _, _, _ => .ok []

/-- Parameters of one Decoder stage: the stride-2 transposed convolution and
the fusing Block. -/
structure DecStageParams where
  up : ConvParams
  block : BlockParams

/-- Decoder.forward (lines 77-83): per stage upsample by the transposed
convolution, center-crop the corresponding encoder feature to the upsampled
size, concatenate along channels, and fuse with a Block. -/
def decoderGo : List ℕ → (ℕ → DecStageParams) → ℕ → Tensor4 → List Tensor4 →
    Except String Tensor4
  | cIn :: cOut :: rest, ps, i, x, features => do
      let xu ← convTranspose2 cIn cOut (ps i).up x
      let ef ← listIdx features i
      let enc2 := decoderCrop ef xu
      let xc ← catC xu enc2
      let xb ← blockForward cIn cOut (ps i).block xc
      decoderGo (cOut :: rest) ps (i + 1) xb features
  | _, _, _, x, _ => .ok x

/-- All trainable parameters of the UNet: one BlockParams per encoder stage,
one DecStageParams per decoder stage, and the 1x1 head convolution. -/
structure UNetParams where
  encP : ℕ → BlockParams
  decP : ℕ → DecStageParams
  headP : ConvParams

/-- Value-level model of a UNet instance (lines 91-118): the optional frozen
generator (a callable returning a Python tuple, modelled as a list), the
externally supplied channel-remapping module, the channel schedules, head
output channels, the retain_dim flag with its target size, and the weights. -/
structure UNetModel where
  gan : Option (Tensor4 → List Tensor4)
  change_channels : Tensor4 → Tensor4
  enc_chs : List ℕ := [6, 64, 128, 256, 512]
  dec_chs : List ℕ := [512, 256, 128, 64]
  num_classes : ℕ := 3
  retain_dim : Bool := true
  out_sz : ℕ × ℕ := (32, 32)
  params : UNetParams

/-- The shared direct-mode forward pass (lines 154-165, repeated verbatim at
lines 175-183): channel remap (torch.no_grad does not change the computed
values), encoder, decoder seeded with the reversed pyramid, head, and the
retain_dim resize. -/
def directForward (m : UNetModel) (x : Tensor4) : Except String Tensor4 := do
  let x2 := m.change_channels x
  let ftrs ← encoderForward m.enc_chs m.params.encP 0 x2
  let seed ← listIdx ftrs.reverse 0
  let out ← decoderGo m.dec_chs m.params.decP 0 seed (ftrs.reverse.drop 1)
  let out2 ← conv2d (m.dec_chs.getLastD 0) m.num_classes 1 0 m.params.headP out
  .ok (if m.retain_dim then interpolateNearest m.out_sz out2 else out2)

/-- UNet.training_step (lines 131-170): the loss it returns. -/
def trainingStepCore (m : UNetModel) (batch : Tensor4 × ℕ) :
    Except String ℚ := do
  let x := batch.1
  let x2 := m.change_channels x
  let ftrs ← encoderForward m.enc_chs m.params.encP 0 x2
  let seed ← listIdx ftrs.reverse 0
  let out ← decoderGo m.dec_chs m.params.decP 0 seed (ftrs.reverse.drop 1)
  let out2 ← conv2d (m.dec_chs.getLastD 0) m.num_classes 1 0 m.params.headP out
  let out3 := if m.retain_dim then interpolateNearest m.out_sz out2 else out2
  .ok (mseLoss out3 x)

/-- UNet.validation_step (lines 172-188): the loss it returns; the body is the
same text as training_step in the source, only the logged name differs. -/
def validationStepCore (m : UNetModel) (batch : Tensor4 × ℕ) :
    Except String ℚ := do
  let x := batch.1
  let x2 := m.change_channels x
  let ftrs ← encoderForward m.enc_chs m.params.encP 0 x2
  let seed ← listIdx ftrs.reverse 0
  let out ← decoderGo m.dec_chs m.params.decP 0 seed (ftrs.reverse.drop 1)
  let out2 ← conv2d (m.dec_chs.getLastD 0) m.num_classes 1 0 m.params.headP out
  let out3 := if m.retain_dim then interpolateNearest m.out_sz out2 else out2
  .ok (mseLoss out3 x)

/-- Python tuple unpacking a, b, c, d, e = t for a sequence t: succeeds only
when the sequence has exactly five elements. -/
def unpack5 {α : Type} : List α → Except String (α × α × α × α × α)
  | [a, b, c, d, e] => .ok (a, b, c, d, e)
  | l =>
    if l.length < 5 then .error "ValueError: not enough values to unpack (expected 5)"
    else .error "ValueError: too many values to unpack (expected 5)"

/-- UNet.test_step (lines 191-215): call the frozen generator, unpack five
values keeping the second, reduce channels with a ConvTranspose2d(6, 3, 1)
whose freshly created weights are passed in as hoiP, upsample to 32x32, then
run encoder, decoder, head and the retain_dim resize, and return the MSE. -/
def testStepCore (m : UNetModel) (hoiP : ConvParams) (batch : Tensor4 × ℕ) :
    Except String ℚ := do
  let x := batch.1
  let g ← (match m.gan with
    | some g => Except.ok g
    | none => Except.error "TypeError: NoneType object is not callable")
  let (_, encoded_x, _, _, _) ← unpack5 (g x)
  let e ← convTranspose1 6 3 hoiP encoded_x
  let e2 := interpolateNearest (32, 32) e
  let ftrs ← encoderForward m.enc_chs m.params.encP 0 e2
  let seed ← listIdx ftrs.reverse 0
  let out ← decoderGo m.dec_chs m.params.decP 0 seed (ftrs.reverse.drop 1)
  let out2 ← conv2d (m.dec_chs.getLastD 0) m.num_classes 1 0 m.params.headP out
  let out3 := if m.retain_dim then interpolateNearest m.out_sz out2 else out2
  .ok (mseLoss out3 x)

/-- Observable state touched by a Lightning step: the model (all parameter
tensors live inside it) and the metrics the step logged via self.log. -/
structure StepState where
  model : UNetModel
  logs : List (String × ℚ)

/-- training_step with its self.log effect (line 168 logs "total/loss"). -/
def trainingStepRun (s : StepState) (batch : Tensor4 × ℕ) :
    StepState × Except String ℚ :=
  match trainingStepCore s.model batch with
  | .ok loss => ({ s with logs := s.logs ++ [("total/loss", loss)] }, .ok loss)
  | .error e => (s, .error e)

/-- validation_step with its self.log effect (line 187 logs "val/loss"). -/
def validationStepRun (s : StepState) (batch : Tensor4 × ℕ) :
    StepState × Except String ℚ :=
  match validationStepCore s.model batch with
  | .ok loss => ({ s with logs := s.logs ++ [("val/loss", loss)] }, .ok loss)
  | .error e => (s, .error e)

theorem ebind_ok {α β : Type} (a : α) (f : α → Except String β) :
    (Except.ok a : Except String α) >>= f = f a := rfl

theorem ebind_err {α β : Type} (s : String) (f : α → Except String β) :
    (Except.error s : Except String α) >>= f = .error s := rfl

/-- A successful conv2d fully determines the output shape (and requires the
channel match and a kernel no larger than the padded input). -/
theorem conv2d_inv {inC outC k pad : ℕ} {p : ConvParams} {x y : Tensor4}
    (h : conv2d inC outC k pad p x = .ok y) :
    x.C = inC ∧ k ≤ x.H + 2 * pad ∧ k ≤ x.W + 2 * pad ∧
      y.B = x.B ∧ y.C = outC ∧
      y.H = x.H + 2 * pad + 1 - k ∧ y.W = x.W + 2 * pad + 1 - k := by
  unfold conv2d at h
  split at h
  · rename_i hc
    cases h
    exact ⟨hc.1, hc.2.1, hc.2.2, rfl, rfl, rfl, rfl⟩
  · cases h

/-- conv2d succeeds when the channel count matches and the kernel fits. -/
theorem conv2d_ok (inC outC k pad : ℕ) (p : ConvParams) (x : Tensor4)
    (hc : x.C = inC) (hh : k ≤ x.H + 2 * pad) (hw : k ≤ x.W + 2 * pad) :
    ∃ y, conv2d inC outC k pad p x = .ok y ∧
      y.B = x.B ∧ y.C = outC ∧
      y.H = x.H + 2 * pad + 1 - k ∧ y.W = x.W + 2 * pad + 1 - k := by
  unfold conv2d
  rw [if_pos ⟨hc, hh, hw⟩]
  exact ⟨_, rfl, rfl, rfl, rfl, rfl⟩

theorem reluT_B (x : Tensor4) : (reluT x).B = x.B := rfl
theorem reluT_C (x : Tensor4) : (reluT x).C = x.C := rfl
theorem reluT_H (x : Tensor4) : (reluT x).H = x.H := rfl
theorem reluT_W (x : Tensor4) : (reluT x).W = x.W := rfl

theorem maxPool2_inv {x y : Tensor4} (h : maxPool2 x = .ok y) :
    2 ≤ x.H ∧ 2 ≤ x.W ∧ y.B = x.B ∧ y.C = x.C ∧
      y.H = x.H / 2 ∧ y.W = x.W / 2 := by
  unfold maxPool2 at h
  split at h
  · rename_i hc
    cases h
    exact ⟨hc.1, hc.2, rfl, rfl, rfl, rfl⟩
  · cases h

theorem maxPool2_ok (x : Tensor4) (hh : 2 ≤ x.H) (hw : 2 ≤ x.W) :
    ∃ y, maxPool2 x = .ok y ∧ y.B = x.B ∧ y.C = x.C ∧
      y.H = x.H / 2 ∧ y.W = x.W / 2 := by
  unfold maxPool2
  rw [if_pos ⟨hh, hw⟩]
  exact ⟨_, rfl, rfl, rfl, rfl, rfl⟩

theorem convTranspose2_inv {inC outC : ℕ} {p : ConvParams} {x y : Tensor4}
    (h : convTranspose2 inC outC p x = .ok y) :
    x.C = inC ∧ 1 ≤ x.H ∧ 1 ≤ x.W ∧ y.B = x.B ∧ y.C = outC ∧
      y.H = 2 * x.H ∧ y.W = 2 * x.W := by
  unfold convTranspose2 at h
  split at h
  · rename_i hc
    cases h
    exact ⟨hc.1, hc.2.1, hc.2.2, rfl, rfl, rfl, rfl⟩
  · cases h

theorem convTranspose2_ok (inC outC : ℕ) (p : ConvParams) (x : Tensor4)
    (hc : x.C = inC) (hh : 1 ≤ x.H) (hw : 1 ≤ x.W) :
    ∃ y, convTranspose2 inC outC p x = .ok y ∧ y.B = x.B ∧ y.C = outC ∧
      y.H = 2 * x.H ∧ y.W = 2 * x.W := by
  unfold convTranspose2
  rw [if_pos ⟨hc, hh, hw⟩]
  exact ⟨_, rfl, rfl, rfl, rfl, rfl⟩

theorem catC_ok (x y : Tensor4) (hb : x.B = y.B) (hh : x.H = y.H)
    (hw : x.W = y.W) :
    ∃ z, catC x y = .ok z ∧ z.B = x.B ∧ z.C = x.C + y.C ∧
      z.H = x.H ∧ z.W = x.W := by
  unfold catC
  rw [if_pos ⟨hb, hh, hw⟩]
  exact ⟨_, rfl, rfl, rfl, rfl, rfl⟩

theorem padZero_B (l t r b : ℕ) (x : Tensor4) : (padZero l t r b x).B = x.B := rfl
theorem padZero_C (l t r b : ℕ) (x : Tensor4) : (padZero l t r b x).C = x.C := rfl
theorem padZero_H (l t r b : ℕ) (x : Tensor4) :
    (padZero l t r b x).H = x.H + t + b := rfl
theorem padZero_W (l t r b : ℕ) (x : Tensor4) :
    (padZero l t r b x).W = x.W + l + r := rfl

/-- CenterCrop always returns a tensor of exactly the requested spatial size,
with batch and channel dimensions untouched; it pads when the input is
smaller, it never raises. -/
theorem center_crop_spec (ch cw : ℕ) (x : Tensor4) :
    (center_crop ch cw x).B = x.B ∧ (center_crop ch cw x).C = x.C ∧
      (center_crop ch cw x).H = ch ∧ (center_crop ch cw x).W = cw := by
  unfold center_crop
  split
  · split
    · rename_i heq
      exact ⟨rfl, rfl, heq.1, heq.2⟩
    · exact ⟨rfl, rfl, rfl, rfl⟩
  · exact ⟨rfl, rfl, rfl, rfl⟩

/-- When the encoder feature already has the target spatial size, the
decoder crop is a no-op on every entry. -/
theorem decoderCrop_noop (enc x : Tensor4) (hh : enc.H = x.H)
    (hw : enc.W = x.W) (b c i j : ℕ) :
    (decoderCrop enc x).data b c i j = enc.data b c i j := by
  unfold decoderCrop center_crop
  rw [if_neg (by omega)]
  simp [cropTL, hh, hw, halfRoundEven]

/-- A Block maps a C=inC tensor with positive spatial dims to a C=outC tensor
of identical spatial size. -/
theorem blockForward_ok (inC outC : ℕ) (p : BlockParams) (x : Tensor4)
    (hc : x.C = inC) (hh : 1 ≤ x.H) (hw : 1 ≤ x.W) :
    ∃ y, blockForward inC outC p x = .ok y ∧
      y.B = x.B ∧ y.C = outC ∧ y.H = x.H ∧ y.W = x.W := by
  obtain ⟨y1, e1, b1, c1, h1, w1⟩ :=
    conv2d_ok inC outC 3 1 p.c1 x hc (by omega) (by omega)
  have h1e : y1.H = x.H := by omega
  have w1e : y1.W = x.W := by omega
  obtain ⟨y2, e2, b2, c2, h2, w2⟩ :=
    conv2d_ok outC outC 3 1 p.c2 (reluT y1) c1 (by simp [reluT]; omega)
      (by simp [reluT]; omega)
  simp only [reluT] at b2 h2 w2
  have h2e : y2.H = x.H := by omega
  have w2e : y2.W = x.W := by omega
  obtain ⟨y3, e3, b3, c3, h3, w3⟩ :=
    conv2d_ok outC outC 3 1 p.c3 (reluT y2) c2 (by simp [reluT]; omega)
      (by simp [reluT]; omega)
  simp only [reluT] at b3 h3 w3
  have h3e : y3.H = x.H := by omega
  have w3e : y3.W = x.W := by omega
  obtain ⟨y4, e4, b4, c4, h4, w4⟩ :=
    conv2d_ok outC outC 3 1 p.c4 (reluT y3) c3 (by simp [reluT]; omega)
      (by simp [reluT]; omega)
  simp only [reluT] at b4 h4 w4
  have h4e : y4.H = x.H := by omega
  have w4e : y4.W = x.W := by omega
  obtain ⟨y5, e5, b5, c5, h5, w5⟩ :=
    conv2d_ok outC outC 3 1 p.c5 (reluT y4) c4 (by simp [reluT]; omega)
      (by simp [reluT]; omega)
  simp only [reluT] at b5 h5 w5
  have h5e : y5.H = x.H := by omega
  have w5e : y5.W = x.W := by omega
  obtain ⟨y6, e6, b6, c6, h6, w6⟩ :=
    conv2d_ok outC outC 3 1 p.c6 (reluT y5) c5 (by simp [reluT]; omega)
      (by simp [reluT]; omega)
  simp only [reluT] at b6 h6 w6
  refine ⟨y6, ?_, by omega, c6, by omega, by omega⟩
  rw [blockForward, e1, ebind_ok, e2, ebind_ok, e3, ebind_ok, e4, ebind_ok,
    e5, ebind_ok, e6]

theorem ebind_inv {α β : Type} {e : Except String α} {f : α → Except String β}
    {y : β} (h : e >>= f = .ok y) : ∃ a, e = .ok a ∧ f a = .ok y := by
  cases e with
  | ok a => exact ⟨a, rfl, h⟩
  | error s => rw [ebind_err] at h; exact Except.noConfusion h

/-- A successful Block run requires a matching input channel count and
positive spatial dims, and preserves batch and spatial size. -/
theorem blockForward_inv {inC outC : ℕ} {p : BlockParams} {x y : Tensor4}
    (h : blockForward inC outC p x = .ok y) :
    x.C = inC ∧ 1 ≤ x.H ∧ 1 ≤ x.W ∧
      y.B = x.B ∧ y.C = outC ∧ y.H = x.H ∧ y.W = x.W := by
  unfold blockForward at h
  obtain ⟨x1, e1, h⟩ := ebind_inv h
  obtain ⟨x2, e2, h⟩ := ebind_inv h
  obtain ⟨x3, e3, h⟩ := ebind_inv h
  obtain ⟨x4, e4, h⟩ := ebind_inv h
  obtain ⟨x5, e5, h⟩ := ebind_inv h
  obtain ⟨hc1, hh1, hw1, hb1, hcc1, hhh1, hww1⟩ := conv2d_inv e1
  obtain ⟨hc2, hh2, hw2, hb2, hcc2, hhh2, hww2⟩ := conv2d_inv e2
  obtain ⟨hc3, hh3, hw3, hb3, hcc3, hhh3, hww3⟩ := conv2d_inv e3
  obtain ⟨hc4, hh4, hw4, hb4, hcc4, hhh4, hww4⟩ := conv2d_inv e4
  obtain ⟨hc5, hh5, hw5, hb5, hcc5, hhh5, hww5⟩ := conv2d_inv e5
  obtain ⟨hc6, hh6, hw6, hb6, hcc6, hhh6, hww6⟩ := conv2d_inv h
  simp only [reluT] at *
  exact ⟨hc1, by omega, by omega, by omega, hcc6, by omega, by omega⟩

theorem pow2_div_half {m n : ℕ} (h : 2 ^ m ∣ n) : 2 ^ (m - 1) ∣ n / 2 := by
  cases m with
  | zero => simp
  | succ k =>
    obtain ⟨t, rfl⟩ := h
    have h2 : 2 ^ (k + 1) * t = 2 * (2 ^ k * t) := by ring
    rw [h2, Nat.mul_div_cancel_left _ (by norm_num)]
    exact Dvd.intro t rfl

theorem pow2_le_half {m n : ℕ} (h : 2 ^ (m + 1) ≤ n) : 2 ^ m ≤ n / 2 := by
  rw [Nat.le_div_iff_mul_le (by norm_num)]
  calc 2 ^ m * 2 = 2 ^ (m + 1) := by ring
  _ ≤ n := h

/-- Success of the Encoder: on an input matching the head of the channel
schedule whose spatial dims are divisible by 2^(n-1) and at least 2^n
(n = number of stages, so that every pool including the final discarded one
has a nonzero output), the Encoder returns exactly n feature maps, the k-th
recorded before pooling, with channel count equal to schedule entry k+1 and
spatial dims divided by 2^k. -/
theorem encoderForward_ok :
    ∀ (rest : List ℕ) (c0 : ℕ) (ps : ℕ → BlockParams) (i0 : ℕ) (x : Tensor4),
    x.C = c0 → 2 ^ (rest.length - 1) ∣ x.H → 2 ^ (rest.length - 1) ∣ x.W →
    2 ^ rest.length ≤ x.H → 2 ^ rest.length ≤ x.W →
    ∃ ftrs, encoderForward (c0 :: rest) ps i0 x = .ok ftrs ∧
      ftrs.length = rest.length ∧
      ∀ k, k < rest.length →
        ∃ f, ftrs.get? k = some f ∧ f.B = x.B ∧ f.C = rest.getD k 0 ∧
          f.H = x.H / 2 ^ k ∧ f.W = x.W / 2 ^ k := by
  intro rest
  induction rest with
  | nil =>
    intro c0 ps i0 x _ _ _ _ _
    exact ⟨[], rfl, rfl, fun k hk => by simp at hk⟩
  | cons c1 rest' ih =>
    intro c0 ps i0 x hc hdH hdW hlH hlW
    have hlH1 : 2 ^ (rest'.length + 1) ≤ x.H := by simpa using hlH
    have hlW1 : 2 ^ (rest'.length + 1) ≤ x.W := by simpa using hlW
    have hpow2 : (2 : ℕ) ≤ 2 ^ (rest'.length + 1) := by
      have h1 : (1 : ℕ) ≤ 2 ^ rest'.length := Nat.one_le_two_pow
      have h2 : (2 : ℕ) ^ (rest'.length + 1) = 2 * 2 ^ rest'.length := by ring
      omega
    have hx2 : 2 ≤ x.H := le_trans hpow2 hlH1
    have hx2w : 2 ≤ x.W := le_trans hpow2 hlW1
    obtain ⟨y, ey, yb, yc, yh, yw⟩ :=
      blockForward_ok c0 c1 (ps i0) x hc (by omega) (by omega)
    obtain ⟨xp, ep, pb, pc, ph, pw⟩ := maxPool2_ok y (by omega) (by omega)
    have hxpC : xp.C = c1 := by rw [pc, yc]
    have hxpH : xp.H = x.H / 2 := by rw [ph, yh]
    have hxpW : xp.W = x.W / 2 := by rw [pw, yw]
    have hdH' : 2 ^ (rest'.length - 1) ∣ xp.H := by
      rw [hxpH]; exact pow2_div_half (by simpa using hdH)
    have hdW' : 2 ^ (rest'.length - 1) ∣ xp.W := by
      rw [hxpW]; exact pow2_div_half (by simpa using hdW)
    have hlH' : 2 ^ rest'.length ≤ xp.H := by
      rw [hxpH]; exact pow2_le_half hlH1
    have hlW' : 2 ^ rest'.length ≤ xp.W := by
      rw [hxpW]; exact pow2_le_half hlW1
    obtain ⟨tl, etl, htl, hk⟩ := ih c1 ps (i0 + 1) xp hxpC hdH' hdW' hlH' hlW'
    refine ⟨y :: tl, ?_, by simp [htl], ?_⟩
    · rw [encoderForward, ey, ebind_ok, ep, ebind_ok, etl, ebind_ok]
    · intro k hkk
      cases k with
      | zero =>
        exact ⟨y, rfl, yb, by simpa using yc, by simpa using yh,
          by simpa using yw⟩
      | succ k' =>
        obtain ⟨f, hf, fb, fc, fh, fw⟩ := hk k' (by simpa using hkk)
        refine ⟨f, by simpa using hf, by rw [fb, pb, yb], by simpa using fc,
          ?_, ?_⟩
        · rw [fh, hxpH, Nat.div_div_eq_div_mul]
          congr 1
          ring
        · rw [fw, hxpW, Nat.div_div_eq_div_mul]
          congr 1
          ring

/-- Inversion for the Encoder: whenever it succeeds, the pyramid has one
entry per stage, the k-th entry carries the batch size, schedule channel
k+1, and the spatial dims floor-divided by 2^k; moreover every pool that ran
had spatial dims of at least 2. -/
theorem encoderForward_shapes_of_ok :
    ∀ (chs : List ℕ) (ps : ℕ → BlockParams) (i0 : ℕ) (x : Tensor4)
      (ftrs : List Tensor4),
    encoderForward chs ps i0 x = .ok ftrs →
    ftrs.length = chs.length - 1 ∧
      (∀ k, k < ftrs.length →
        ∃ f, ftrs.get? k = some f ∧ f.B = x.B ∧ f.C = chs.getD (k + 1) 0 ∧
          f.H = x.H / 2 ^ k ∧ f.W = x.W / 2 ^ k) ∧
      (∀ k, k < chs.length - 1 → 2 ≤ x.H / 2 ^ k ∧ 2 ≤ x.W / 2 ^ k) := by
  intro chs
  induction chs with
  | nil =>
    intro ps i0 x ftrs h
    cases h
    exact ⟨rfl, fun k hk => by simp at hk, fun k hk => by simp at hk⟩
  | cons c0 rest ih =>
    intro ps i0 x ftrs h
    cases rest with
    | nil =>
      cases h
      exact ⟨rfl, fun k hk => by simp at hk, fun k hk => by simp at hk⟩
    | cons c1 rest' =>
      rw [encoderForward] at h
      obtain ⟨y, ey, h⟩ := ebind_inv h
      obtain ⟨xp, ep, h⟩ := ebind_inv h
      obtain ⟨tl, etl, h⟩ := ebind_inv h
      cases h
      obtain ⟨hcx, hx1, hw1, yb, yc, yh, yw⟩ := blockForward_inv ey
      obtain ⟨hy2, hy2w, pb, pc, ph, pw⟩ := maxPool2_inv ep
      obtain ⟨htl, hks, hpools⟩ := ih ps (i0 + 1) xp tl etl
      have hxpH : xp.H = x.H / 2 := by rw [ph, yh]
      have hxpW : xp.W = x.W / 2 := by rw [pw, yw]
      refine ⟨by simp [htl], ?_, ?_⟩
      · intro k hkk
        cases k with
        | zero =>
          exact ⟨y, rfl, yb, by simpa using yc, by simpa using yh,
            by simpa using yw⟩
        | succ k' =>
          obtain ⟨f, hf, fb, fc, fh, fw⟩ := hks k' (by simpa using hkk)
          refine ⟨f, by simpa using hf, by rw [fb, pb, yb],
            by simpa using fc, ?_, ?_⟩
          · rw [fh, hxpH, Nat.div_div_eq_div_mul]
            congr 1
            ring
          · rw [fw, hxpW, Nat.div_div_eq_div_mul]
            congr 1
            ring
      · intro k hkk
        cases k with
        | zero =>
          constructor
          · simpa using le_trans hy2 (le_of_eq yh)
          · simpa using le_trans hy2w (le_of_eq yw)
        | succ k' =>
          have hkk' : k' < (c1 :: rest').length - 1 := by
            simp at hkk
            simpa using hkk
          obtain ⟨hp1, hp2⟩ := hpools k' hkk'
          rw [hxpH, Nat.div_div_eq_div_mul] at hp1
          rw [hxpW, Nat.div_div_eq_div_mul] at hp2
          constructor
          · have he : 2 * 2 ^ k' = 2 ^ (k' + 1) := by ring
            rwa [he] at hp1
          · have he : 2 * 2 ^ k' = 2 ^ (k' + 1) := by ring
            rwa [he] at hp2

/-- The decoder crop returns the running tensor's spatial size with the
encoder feature's batch and channels. -/
theorem decoderCrop_spec (e x : Tensor4) :
    (decoderCrop e x).B = e.B ∧ (decoderCrop e x).C = e.C ∧
      (decoderCrop e x).H = x.H ∧ (decoderCrop e x).W = x.W :=
  center_crop_spec x.H x.W e

/-- Success of the Decoder: starting from a seed tensor matching the head of
the decoder schedule, with one encoder feature per stage whose channel count
is the gap between consecutive schedule entries, the decoder returns a
tensor whose spatial dims are the seed's multiplied by 2^(stages). -/
theorem decoderGo_ok :
    ∀ (chs : List ℕ) (ps : ℕ → DecStageParams) (i0 : ℕ) (x : Tensor4)
      (fs : List Tensor4),
    1 ≤ x.H → 1 ≤ x.W →
    (∀ c cs, chs = c :: cs → x.C = c) →
    (∀ k a b, chs.get? k = some a → chs.get? (k + 1) = some b →
      ∃ f, fs.get? (i0 + k) = some f ∧ f.B = x.B ∧ f.C + b = a) →
    ∃ out, decoderGo chs ps i0 x fs = .ok out ∧ out.B = x.B ∧
      out.C = chs.getLastD x.C ∧
      out.H = 2 ^ (chs.length - 1) * x.H ∧
      out.W = 2 ^ (chs.length - 1) * x.W := by
  intro chs
  induction chs with
  | nil =>
    intro ps i0 x fs _ _ _ _
    exact ⟨x, rfl, rfl, rfl, by simp, by simp⟩
  | cons c rest ih =>
    intro ps i0 x fs hx1 hw1 hhead hfeat
    cases rest with
    | nil =>
      refine ⟨x, rfl, rfl, ?_, by simp, by simp⟩
      simp [List.getLastD, hhead c [] rfl]
    | cons c' rest' =>
      obtain ⟨xu, exu, ub, uc, uh, uw⟩ :=
        convTranspose2_ok c c' (ps i0).up x (hhead c (c' :: rest') rfl) hx1 hw1
      obtain ⟨f, hf, fb, fcc⟩ := hfeat 0 c c' rfl rfl
      have hidx : listIdx fs i0 = .ok f := by
        simp only [Nat.add_zero] at hf
        unfold listIdx
        rw [hf]
      obtain ⟨cb, ccc, chh, cww⟩ := decoderCrop_spec f xu
      obtain ⟨xc, exc, xcb, xcc, xch, xcw⟩ :=
        catC_ok xu (decoderCrop f xu) (by omega) (by omega) (by omega)
      have hxcC : xc.C = c := by
        rw [xcc, uc, ccc]
        omega
      obtain ⟨xb, exb, bb, bc, bh, bw⟩ :=
        blockForward_ok c c' (ps i0).block xc hxcC (by omega) (by omega)
      have hbH : xb.H = 2 * x.H := by omega
      have hbW : xb.W = 2 * x.W := by omega
      have hbB : xb.B = x.B := by omega
      obtain ⟨out, eo, ob, oc, ohh, oww⟩ :=
        ih ps (i0 + 1) xb fs (by omega) (by omega)
          (fun d ds hds => by
            cases hds
            exact bc)
          (fun k a b ha hb => by
            obtain ⟨g, hg, gb, gcc⟩ := hfeat (k + 1) a b ha hb
            refine ⟨g, ?_, by omega, gcc⟩
            have : i0 + 1 + k = i0 + (k + 1) := by omega
            rw [this]
            exact hg)
      refine ⟨out, ?_, by omega, ?_, ?_, ?_⟩
      · rw [decoderGo, exu, ebind_ok, hidx, ebind_ok]
        simp only [exc, ebind_ok, exb, eo]
      · rw [oc]
        obtain ⟨a, ha⟩ := Option.isSome_iff_exists.mp
          (List.getLast?_isSome.mpr (List.cons_ne_nil c' rest'))
        simp [List.getLastD, ha]
      · rw [ohh, hbH]
        have hl : (c :: c' :: rest').length - 1 = ((c' :: rest').length - 1) + 1 := by
          simp
        rw [hl]
        ring
      · rw [oww, hbW]
        have hl : (c :: c' :: rest').length - 1 = ((c' :: rest').length - 1) + 1 := by
          simp
        rw [hl]
        ring

/-- Mean-squared error is a mean of squares, hence nonnegative. -/
theorem mseLoss_nonneg (a x : Tensor4) : 0 ≤ mseLoss a x := by
  unfold mseLoss
  apply div_nonneg
  · apply Finset.sum_nonneg
    intro b _
    apply Finset.sum_nonneg
    intro c _
    apply Finset.sum_nonneg
    intro i _
    apply Finset.sum_nonneg
    intro j _
    positivity
  · positivity

/-- training_step returns exactly the MSE between the direct-mode forward
output and the input batch. -/
theorem trainingStepCore_eq (m : UNetModel) (x : Tensor4) (lbl : ℕ) :
    trainingStepCore m (x, lbl) =
      directForward m x >>= fun out => .ok (mseLoss out x) := by
  unfold trainingStepCore directForward
  dsimp only
  cases he : encoderForward m.enc_chs m.params.encP 0 (m.change_channels x) with
  | error s => simp only [ebind_err]
  | ok ftrs =>
    simp only [ebind_ok]
    cases hs : listIdx ftrs.reverse 0 with
    | error s => simp only [ebind_err]
    | ok seed =>
      simp only [ebind_ok]
      cases hd : decoderGo m.dec_chs m.params.decP 0 seed (ftrs.reverse.drop 1) with
      | error s => simp only [ebind_err]
      | ok out =>
        simp only [ebind_ok]
        cases hh : conv2d (m.dec_chs.getLastD 0) m.num_classes 1 0
            m.params.headP out with
        | error s => simp only [ebind_err]
        | ok out2 => simp only [ebind_ok]

/-- Parameter-registration view of the UNet (lines 92-118): the parameter
names owned by each registered submodule, in registration order.  nn.Upsample
owns no parameters.  Lines 103 and 106 assign requires_grad = False on the
generator and channel-remap module objects; that sets a plain Python
attribute on the module and removes nothing from self.parameters(), so this
view does not depend on it. -/
structure UNetModules where
  gan : Option (List String)
  change_channels : Option (List String)
  encoderParams : List String
  decoderParams : List String
  headParams : List String
  lr : ℚ

/-- nn.Module.parameters() on the UNet: recursively all parameters of its
registered submodules (upsample contributes none; an absent generator or
channel-remap module contributes none). -/
def UNetModules.parameters (u : UNetModules) : List String :=
  (u.gan.getD []) ++ (u.change_channels.getD []) ++ u.encoderParams ++
    u.decoderParams ++ u.headParams

/-- The object torch.optim.Adam(params, lr) is constructed over. -/
structure AdamOptimizer where
  paramSet : List String
  lr : ℚ

/-- UNet.configure_optimizers (lines 121-129): a single Adam optimizer over
self.parameters() at the stored learning rate. -/
def UNetModules.configure_optimizers (u : UNetModules) : AdamOptimizer :=
  ⟨u.parameters, u.lr⟩

/-- Python-callable signature view of a dataset loader: the number of
positional parameters it accepts and the length of the tuple it returns. -/
structure PyCallable where
  arity : ℕ
  returnsLen : ℕ

/-- load_data in src/dataloaders/cifar100_loader.py (lines 25-48): defined
with no parameters and returns the pair (trainloader, testloader). -/
def cifar100_load_data : PyCallable := ⟨0, 2⟩

/-- dataset_dict in src/train_attacker.py (lines 60-63).  The CIFAR-10 and
CelebA loader files are not part of this repository snapshot, so their
signatures stay abstract parameters; only the CIFAR-100 entry is concrete. -/
def datasetDict (c10 celeba : PyCallable) : String → Option PyCallable :=
  fun name =>
    if name = "CIFAR-10" then some c10
    else if name = "CIFAR-100" then some cifar100_load_data
    else if name = "CelebA" then some celeba
    else none

/-- Calling a Python function with nargs positional arguments: TypeError
unless the count matches the signature; on success the call yields a tuple
of the declared length. -/
def callWith (f : PyCallable) (nargs : ℕ) : Except String ℕ :=
  if nargs = f.arity then .ok f.returnsLen
  else .error "TypeError: wrong number of positional arguments"

/-- load_data_fn (train_attacker.py lines 185-200): look the name up in
dataset_dict and call the loader with the two positional arguments
(batch_size, num_workers); unknown names hit the assert. -/
def load_data_fn (dict : String → Option PyCallable) (dataset : String) :
    Except String ℕ :=
  match dict dataset with
  | some f => callWith f 2
  | none => .error "AssertionError: Unknown dataset name"

/-- The data-loading phase of train_model (train_attacker.py lines 79-82):
call load_data_fn and unpack the result into the four names
(classes, trainloader, valloader, testloader); a tuple of any other length
raises a ValueError before any training starts. -/
def train_model_data (dict : String → Option PyCallable) (dataset : String) :
    Except String Unit := do
  let n ← load_data_fn dict dataset
  if n = 4 then .ok () else .error "ValueError: wrong number of values to unpack"

/-- The direct-mode forward pass on the default schedules: a 32x32 input whose
channel remap yields 6 channels flows through the 4-stage encoder, the
4-entry decoder schedule, the 1x1 head and the resize, producing a 3-channel
32x32 output with the input batch size. -/
theorem directForward_default (m : UNetModel) (x : Tensor4)
    (hm1 : m.enc_chs = [6, 64, 128, 256, 512])
    (hm2 : m.dec_chs = [512, 256, 128, 64])
    (hm3 : m.num_classes = 3) (hm4 : m.retain_dim = true)
    (hm5 : m.out_sz = (32, 32))
    (hccB : (m.change_channels x).B = x.B)
    (hccC : (m.change_channels x).C = 6)
    (hccH : (m.change_channels x).H = x.H)
    (hccW : (m.change_channels x).W = x.W)
    (hxH : x.H = 32) (hxW : x.W = 32) :
    ∃ out, directForward m x = .ok out ∧ out.B = x.B ∧ out.C = 3 ∧
      out.H = 32 ∧ out.W = 32 := by
  obtain ⟨ftrs, he, hlen, hidx⟩ :=
    encoderForward_ok [64, 128, 256, 512] 6 m.params.encP 0
      (m.change_channels x) hccC
      (by rw [hccH, hxH]; decide) (by rw [hccW, hxW]; decide)
      (by rw [hccH, hxH]; decide) (by rw [hccW, hxW]; decide)
  have hlen4 : ftrs.length = 4 := by simpa using hlen
  obtain ⟨f3, hf3, f3B, f3C, f3H, f3W⟩ := hidx 3 (by simp)
  have f3C' : f3.C = 512 := by simpa using f3C
  have f3H' : f3.H = 4 := by rw [f3H, hccH, hxH]; decide
  have f3W' : f3.W = 4 := by rw [f3W, hccW, hxW]; decide
  obtain ⟨f2, hf2, f2B, f2C, f2H, f2W⟩ := hidx 2 (by simp)
  have f2C' : f2.C = 256 := by simpa using f2C
  obtain ⟨f1, hf1, f1B, f1C, f1H, f1W⟩ := hidx 1 (by simp)
  have f1C' : f1.C = 128 := by simpa using f1C
  obtain ⟨f0, hf0, f0B, f0C, f0H, f0W⟩ := hidx 0 (by simp)
  have f0C' : f0.C = 64 := by simpa using f0C
  have hseed : listIdx ftrs.reverse 0 = .ok f3 := by
    unfold listIdx
    have hrev : ftrs.reverse.get? 0 = some f3 := by
      rw [List.get?_eq_getElem?, List.getElem?_reverse (by omega), hlen4]
      have hf3' : ftrs[3]? = some f3 := by
        rw [← List.get?_eq_getElem?]
        exact hf3
      simpa using hf3'
    rw [hrev]
  have hfs : ∀ k, k < 3 →
      (ftrs.reverse.drop 1).get? k = ftrs.get? (2 - k) := by
    intro k hk
    rw [List.get?_eq_getElem?, List.getElem?_drop,
      List.getElem?_reverse (by omega), hlen4, List.get?_eq_getElem?]
    congr 1
    omega
  obtain ⟨out, hdec, outB, outC, outH, outW⟩ :=
    decoderGo_ok [512, 256, 128, 64] m.params.decP 0 f3 (ftrs.reverse.drop 1)
      (by omega) (by omega)
      (fun c cs hc => by cases hc; omega)
      (by
        intro k a b ha hb
        rcases k with _ | _ | _ | k3
        · simp at ha hb
          refine ⟨f2, ?_, by omega, by omega⟩
          rw [Nat.zero_add, hfs 0 (by omega)]
          exact hf2
        · simp at ha hb
          refine ⟨f1, ?_, by omega, by omega⟩
          rw [Nat.zero_add, hfs 1 (by omega)]
          exact hf1
        · simp at ha hb
          refine ⟨f0, ?_, by omega, by omega⟩
          rw [Nat.zero_add, hfs 2 (by omega)]
          exact hf0
        · simp at hb)
  have outC' : out.C = 64 := by simpa using outC
  have outH' : out.H = 32 := by
    rw [outH, f3H']
    decide
  have outW' : out.W = 32 := by
    rw [outW, f3W']
    decide
  obtain ⟨out2, hhead, o2B, o2C, o2H, o2W⟩ :=
    conv2d_ok 64 3 1 0 m.params.headP out (by omega) (by omega) (by omega)
  refine ⟨interpolateNearest (32, 32) out2, ?_, ?_, ?_, rfl, rfl⟩
  · unfold directForward
    dsimp only
    rw [hm1, hm2, hm3, hm4, hm5, he, ebind_ok, hseed, ebind_ok, hdec,
      ebind_ok]
    have hgl : ([512, 256, 128, 64] : List ℕ).getLastD 0 = 64 := by decide
    rw [hgl, hhead, ebind_ok]
    simp [interpolateNearest]
  · show out2.B = x.B
    omega
  · show out2.C = 3
    omega

/-- All-zero convolution weights, for concrete instances. -/
def zeroConv : ConvParams := ⟨fun _ _ _ _ => 0, fun _ => 0⟩

/-- All-zero Block weights. -/
def zeroBlock : BlockParams :=
  ⟨zeroConv, zeroConv, zeroConv, zeroConv, zeroConv, zeroConv⟩

/-- All-zero decoder stage weights. -/
def zeroDecStage : DecStageParams := ⟨zeroConv, zeroBlock⟩

/-- All-zero UNet weights. -/
def zeroUNetParams : UNetParams :=
  ⟨fun _ => zeroBlock, fun _ => zeroDecStage, zeroConv⟩

/-- An all-zero tensor of the given shape. -/
def zeros4 (B C H W : ℕ) : Tensor4 := ⟨B, C, H, W, fun _ _ _ _ => 0⟩

/-- A sample channel-remap module for concrete instances: 3 to 6 channels by
repeating the input channels, spatial size unchanged (the interface contract
of the external encoding_layer). -/
def dupChannels (x : Tensor4) : Tensor4 :=
  ⟨x.B, 6, x.H, x.W, fun b c i j => x.data b (c % 3) i j⟩

/-- A default-schedule UNet instance with zero weights, no generator, and the
sample channel remap. -/
def mZero : UNetModel :=
  { gan := none, change_channels := dupChannels, params := zeroUNetParams }

/-- C4: the training step and the validation step compute the same loss
function: for every model state and batch the scalar returned by
training_step equals the scalar returned by validation_step (both the MSE of
the resized reconstruction against the input), and the two steps differ only
in the name under which that same scalar is logged ("total/loss" versus
"val/loss"). -/
theorem training_validation_same_loss (m : UNetModel) (batch : Tensor4 × ℕ)
    (logs : List (String × ℚ)) :
    trainingStepCore m batch = validationStepCore m batch ∧
    ∀ loss, trainingStepCore m batch = .ok loss →
      trainingStepRun ⟨m, logs⟩ batch =
        (⟨m, logs ++ [("total/loss", loss)]⟩, .ok loss) ∧
      validationStepRun ⟨m, logs⟩ batch =
        (⟨m, logs ++ [("val/loss", loss)]⟩, .ok loss) := by
  refine ⟨rfl, ?_⟩
  intro loss hl
  have hv : validationStepCore m batch = .ok loss := hl
  constructor
  · unfold trainingStepRun
    dsimp only
    rw [hl]
  · unfold validationStepRun
    dsimp only
    rw [hv]

/-- Witness for C4 at a concrete zero-weight model and zero batch. -/
theorem training_validation_same_loss_witness :
    ∃ loss,
      trainingStepRun ⟨mZero, []⟩ (zeros4 4 3 32 32, 0) =
        (⟨mZero, [("total/loss", loss)]⟩, .ok loss) ∧
      validationStepRun ⟨mZero, []⟩ (zeros4 4 3 32 32, 0) =
        (⟨mZero, [("val/loss", loss)]⟩, .ok loss) := by
  obtain ⟨out, hdf, _, _, _, _⟩ :=
    directForward_default mZero (zeros4 4 3 32 32) rfl rfl rfl rfl rfl rfl
      rfl rfl rfl rfl rfl
  have hl : trainingStepCore mZero (zeros4 4 3 32 32, 0) =
      .ok (mseLoss out (zeros4 4 3 32 32)) := by
    rw [trainingStepCore_eq, hdf, ebind_ok]
  obtain ⟨h1, h2⟩ :=
    (training_validation_same_loss mZero (zeros4 4 3 32 32, 0) []).2 _ hl
  exact ⟨_, h1, h2⟩

/-- C9: neither training_step nor validation_step mutates the model: the
entire model component of the step state (which carries every parameter
tensor of encoder, decoder, head and the frozen submodules) is unchanged by
both steps; the steps only return a loss and append to the logs. -/
theorem steps_do_not_mutate_model (s : StepState) (batch : Tensor4 × ℕ) :
    (trainingStepRun s batch).1.model = s.model ∧
    (validationStepRun s batch).1.model = s.model := by
  constructor
  · unfold trainingStepRun
    cases trainingStepCore s.model batch <;> rfl
  · unfold validationStepRun
    cases validationStepCore s.model batch <;> rfl

/-- C7: in direct mode a 4-image batch of 32x32 RGB images, through the
channel remap, encoder, decoder, head and resize, yields a reconstruction of
shape [4, 3, 32, 32] and a scalar MSE loss that is nonnegative, logged under
the name "total/loss" by the training step. -/
theorem direct_mode_end_to_end (m : UNetModel) (x : Tensor4) (lbl : ℕ)
    (logs : List (String × ℚ))
    (hm1 : m.enc_chs = [6, 64, 128, 256, 512])
    (hm2 : m.dec_chs = [512, 256, 128, 64])
    (hm3 : m.num_classes = 3) (hm4 : m.retain_dim = true)
    (hm5 : m.out_sz = (32, 32))
    (hccB : (m.change_channels x).B = x.B)
    (hccC : (m.change_channels x).C = 6)
    (hccH : (m.change_channels x).H = x.H)
    (hccW : (m.change_channels x).W = x.W)
    (hxB : x.B = 4) (_hxC : x.C = 3) (hxH : x.H = 32) (hxW : x.W = 32) :
    ∃ out loss, directForward m x = .ok out ∧ out.B = 4 ∧ out.C = 3 ∧
      out.H = 32 ∧ out.W = 32 ∧ loss = mseLoss out x ∧ 0 ≤ loss ∧
      trainingStepRun ⟨m, logs⟩ (x, lbl) =
        (⟨m, logs ++ [("total/loss", loss)]⟩, .ok loss) := by
  obtain ⟨out, hdf, oB, oC, oH, oW⟩ :=
    directForward_default m x hm1 hm2 hm3 hm4 hm5 hccB hccC hccH hccW hxH hxW
  refine ⟨out, mseLoss out x, hdf, by omega, oC, oH, oW, rfl,
    mseLoss_nonneg out x, ?_⟩
  have hcore : trainingStepCore m (x, lbl) = .ok (mseLoss out x) := by
    rw [trainingStepCore_eq, hdf, ebind_ok]
  unfold trainingStepRun
  dsimp only
  rw [hcore]

/-- Witness for C7 at the concrete zero-weight default model and an all-zero
4x3x32x32 batch. -/
theorem direct_mode_end_to_end_witness :
    ∃ out loss, directForward mZero (zeros4 4 3 32 32) = .ok out ∧
      out.B = 4 ∧ out.C = 3 ∧ out.H = 32 ∧ out.W = 32 ∧
      loss = mseLoss out (zeros4 4 3 32 32) ∧ 0 ≤ loss ∧
      trainingStepRun ⟨mZero, []⟩ (zeros4 4 3 32 32, 0) =
        (⟨mZero, [("total/loss", loss)]⟩, .ok loss) :=
  direct_mode_end_to_end mZero (zeros4 4 3 32 32) 0 [] rfl rfl rfl rfl rfl
    rfl rfl rfl rfl rfl rfl rfl rfl

/-- C1 (amended): the decoder alignment always returns the running tensor's
spatial size and is a no-op when the encoder feature already has that size;
but when the encoder feature is smaller, CenterCrop silently zero-pads it to
the target size instead of failing fast. -/
theorem decoder_crop_shrink_or_pad (enc x : Tensor4) :
    (decoderCrop enc x).H = x.H ∧ (decoderCrop enc x).W = x.W ∧
    (decoderCrop enc x).B = enc.B ∧ (decoderCrop enc x).C = enc.C ∧
    (enc.H = x.H ∧ enc.W = x.W →
      ∀ b c i j, (decoderCrop enc x).data b c i j = enc.data b c i j) := by
  obtain ⟨hb, hc, hh, hw⟩ := decoderCrop_spec enc x
  exact ⟨hh, hw, hb, hc,
    fun hp b c i j => decoderCrop_noop enc x hp.1 hp.2 b c i j⟩

/-- Witness for C1 at a concrete equal-size pair. -/
theorem decoder_crop_shrink_or_pad_witness :
    (decoderCrop (zeros4 1 1 2 2) (zeros4 1 1 2 2)).H = 2 ∧
    (decoderCrop (zeros4 1 1 2 2) (zeros4 1 1 2 2)).data 0 0 0 0 =
      (zeros4 1 1 2 2).data 0 0 0 0 := by
  obtain ⟨hh, _, _, _, hno⟩ :=
    decoder_crop_shrink_or_pad (zeros4 1 1 2 2) (zeros4 1 1 2 2)
  exact ⟨hh, hno ⟨rfl, rfl⟩ 0 0 0 0⟩

/-- A concrete 1x1 encoder feature with value 5, smaller than the 2x2 target. -/
def encSmall : Tensor4 := ⟨1, 1, 1, 1, fun _ _ _ _ => 5⟩

/-- C1 counterexample: aligning a 1x1 encoder feature to a 2x2 running tensor
does NOT fail: CenterCrop silently returns a 2x2 tensor holding the original
value at (0,0) and zero padding at (1,1), refuting the claimed fail-fast
behaviour. -/
theorem crop_pads_smaller_feature_cex :
    (decoderCrop encSmall (zeros4 1 1 2 2)).H = 2 ∧
    (decoderCrop encSmall (zeros4 1 1 2 2)).W = 2 ∧
    (decoderCrop encSmall (zeros4 1 1 2 2)).data 0 0 0 0 = 5 ∧
    (decoderCrop encSmall (zeros4 1 1 2 2)).data 0 0 1 1 = 0 :=
  ⟨rfl, rfl, rfl, rfl⟩

/-- A concrete UNetModules registration with generator and channel-remap
modules present, one parameter name each. -/
def uFrozen : UNetModules :=
  { gan := some ["gan.conv.weight"],
    change_channels := some ["encoding_layer.weight"],
    encoderParams := ["encoder.w"], decoderParams := ["decoder.w"],
    headParams := ["head.w"], lr := 3 / 10000 }

/-- C2 counterexample: the Adam optimizer built by configure_optimizers
contains the generator parameter and the channel-remap parameter, refuting
the claim that no parameter of the frozen submodules is in its parameter
set. -/
theorem optimizer_includes_frozen_params_cex :
    "gan.conv.weight" ∈ uFrozen.configure_optimizers.paramSet ∧
    "encoding_layer.weight" ∈ uFrozen.configure_optimizers.paramSet := by
  constructor
  · simp [uFrozen, UNetModules.configure_optimizers, UNetModules.parameters]
  · simp [uFrozen, UNetModules.configure_optimizers, UNetModules.parameters]

/-- C2 (amended): the single Adam optimizer is constructed over
self.parameters(), which contains every parameter of the generator and of
the channel-remapping module whenever they are present; the
requires_grad = False attribute assignments remove nothing. -/
theorem optimizer_param_set_superset (u : UNetModules) :
    (∀ g p, u.gan = some g → p ∈ g →
      p ∈ u.configure_optimizers.paramSet) ∧
    (∀ g p, u.change_channels = some g → p ∈ g →
      p ∈ u.configure_optimizers.paramSet) := by
  constructor
  · intro g p hg hp
    simp [UNetModules.configure_optimizers, UNetModules.parameters, hg, hp]
  · intro g p hg hp
    simp [UNetModules.configure_optimizers, UNetModules.parameters, hg, hp]

/-- Witness for C2 at the concrete registration. -/
theorem optimizer_param_set_superset_witness :
    "encoding_layer.weight" ∈ uFrozen.configure_optimizers.paramSet :=
  (optimizer_param_set_superset uFrozen).2 ["encoding_layer.weight"]
    "encoding_layer.weight" rfl (by simp)

/-- C10: selecting the registered name CIFAR-100 resolves in dataset_dict
(it is not an unknown-name configuration error), yet always fails before any
training: the dispatcher calls the loader with two positional arguments
(batch_size, num_workers) although that loader accepts none — and even had
the call succeeded, the loader returns a 2-tuple where train_model unpacks
4. -/
theorem cifar100_dispatch_type_error (c10 celeba : PyCallable) :
    datasetDict c10 celeba "CIFAR-100" = some cifar100_load_data ∧
    cifar100_load_data.arity = 0 ∧ cifar100_load_data.returnsLen = 2 ∧
    train_model_data (datasetDict c10 celeba) "CIFAR-100" =
      .error "TypeError: wrong number of positional arguments" :=
  ⟨rfl, rfl, rfl, rfl⟩

/-- C8 (amended): given generators that return exactly five values agreeing
in the second element (the encoded feature), the test step behaves
identically whatever the other four elements are: only the second element is
consumed. -/
theorem test_step_uses_only_second_element (m : UNetModel)
    (hoiP : ConvParams) (x : Tensor4) (lbl : ℕ)
    (a1 b1 d1 e1 a2 b2 d2 e2 enc : Tensor4) :
    testStepCore { m with gan := some fun _ => [a1, enc, b1, d1, e1] } hoiP
        (x, lbl) =
      testStepCore { m with gan := some fun _ => [a2, enc, b2, d2, e2] } hoiP
        (x, lbl) := rfl

/-- A generator returning only four values. -/
def gan4 : Tensor4 → List Tensor4 :=
  fun _ => [zeros4 4 6 16 16, zeros4 4 6 16 16, zeros4 4 6 16 16,
    zeros4 4 6 16 16]

/-- C8 counterexample: a generator returning a 4-tuple (length at least 4,
with a well-formed encoded feature second) makes test_step raise at tuple
unpacking, refuting the claim that any tuple of length at least 4 is
accepted. -/
theorem test_step_four_tuple_cex :
    testStepCore { mZero with gan := some gan4 } zeroConv
        (zeros4 4 3 32 32, 0) =
      .error "ValueError: not enough values to unpack (expected 5)" := rfl

/-- The mocked [4,6,16,16] encoded feature of spec scenario 2. -/
def feat4616 : Tensor4 := zeros4 4 6 16 16

/-- A mocked generator returning a 5-tuple whose second element is the
[4,6,16,16] encoded feature. -/
def gan5 : Tensor4 → List Tensor4 :=
  fun _ => [zeros4 1 1 1 1, feat4616, zeros4 1 1 1 1, zeros4 1 1 1 1,
    zeros4 1 1 1 1]

/-- C3 (code bug): with the default encoder schedule (first entry 6) the
test-mode pipeline applies ConvTranspose2d(6, 3, 1) to the [4,6,16,16]
feature, producing a 3-channel tensor, upsamples it to 32x32, and then feeds
it to the first encoder convolution which requires 6 input channels - so the
step raises a channel-mismatch error instead of completing with a
[4,3,32,32] reconstruction as the spec describes. -/
theorem test_step_channel_mismatch_eval :
    testStepCore { mZero with gan := some gan5 } zeroConv
        (zeros4 4 3 32 32, 0) =
      .error "RuntimeError: conv2d shape mismatch" := rfl

/-- C5 (amended): for every channel schedule c0 :: rest (n = length of rest
stages) and square input of size S with 2^(n-1) dividing S and 2^n at most S
(the latter needed because the loop max-pools even the last recorded map),
the Encoder returns exactly n feature maps ordered finest to coarsest, the
k-th recorded before pooling with spatial size S / 2^k and channel count
equal to schedule entry k+1. -/
theorem encoder_pyramid_shapes (c0 : ℕ) (rest : List ℕ)
    (ps : ℕ → BlockParams) (x : Tensor4) (S : ℕ) (hc : x.C = c0)
    (hH : x.H = S) (hW : x.W = S) (hdvd : 2 ^ (rest.length - 1) ∣ S)
    (hS : 2 ^ rest.length ≤ S) :
    ∃ ftrs, encoderForward (c0 :: rest) ps 0 x = .ok ftrs ∧
      ftrs.length = rest.length ∧
      ∀ k, k < rest.length →
        ∃ f, ftrs.get? k = some f ∧ f.B = x.B ∧ f.C = rest.getD k 0 ∧
          f.H = S / 2 ^ k ∧ f.W = S / 2 ^ k := by
  obtain ⟨ftrs, he, hl, hk⟩ :=
    encoderForward_ok rest c0 ps 0 x hc (by rw [hH]; exact hdvd)
      (by rw [hW]; exact hdvd) (by rw [hH]; exact hS) (by rw [hW]; exact hS)
  refine ⟨ftrs, he, hl, fun k hkk => ?_⟩
  obtain ⟨f, h1, h2, h3, h4, h5⟩ := hk k hkk
  exact ⟨f, h1, h2, h3, by rw [h4, hH], by rw [h5, hW]⟩

/-- Witness for C5 with the schedule [1, 1, 1] on a 4x4 input. -/
theorem encoder_pyramid_shapes_witness :
    ∃ ftrs, encoderForward [1, 1, 1] zeroUNetParams.encP 0 (zeros4 1 1 4 4) =
        .ok ftrs ∧
      ftrs.length = ([1, 1] : List ℕ).length ∧
      ∀ k, k < ([1, 1] : List ℕ).length →
        ∃ f, ftrs.get? k = some f ∧ f.B = (zeros4 1 1 4 4).B ∧
          f.C = ([1, 1] : List ℕ).getD k 0 ∧ f.H = 4 / 2 ^ k ∧
          f.W = 4 / 2 ^ k :=
  encoder_pyramid_shapes 1 [1, 1] zeroUNetParams.encP (zeros4 1 1 4 4) 4
    rfl rfl rfl (by decide) (by decide)

/-- C5 counterexample: with the valid schedule [1, 1] (one stage, n = 1) and
a 1x1 input - whose size 1 is divisible by 2^(n-1) = 1 as the claim requires
- the Encoder does not return its single feature map: the loop max-pools the
1x1 map it just recorded and torch raises because the pooled output would be
empty. -/
theorem encoder_minimal_size_pool_error_cex :
    encoderForward [1, 1] zeroUNetParams.encP 0 (zeros4 1 1 1 1) =
      .error "RuntimeError: max_pool2d output size too small" := rfl

/-- C6: round-trip shape property.  If the Encoder run on a square input of
size S (divisible by 2^(n-1), n the stage count) produced the pyramid ftrs,
then seeding the Decoder with the coarsest entry and handing it the
remaining entries in reverse order - with the matching decoder schedule,
i.e. the reversed encoder schedule, whose consecutive entries halve -
succeeds and yields an output whose spatial size equals the finest pyramid
entry's spatial size, namely S. -/
theorem decoder_roundtrip_spatial_size (c0 : ℕ) (rest decChs : List ℕ)
    (ps : ℕ → BlockParams) (dps : ℕ → DecStageParams) (x : Tensor4) (S : ℕ)
    (ftrs : List Tensor4)
    (hH : x.H = S) (hW : x.W = S) (hdvd : 2 ^ (rest.length - 1) ∣ S)
    (henc : encoderForward (c0 :: rest) ps 0 x = .ok ftrs)
    (hmatch : decChs = rest.reverse)
    (hdbl : ∀ k a b, decChs.get? k = some a → decChs.get? (k + 1) = some b →
      a = 2 * b)
    (hne : rest ≠ []) :
    ∃ seed out f0, listIdx ftrs.reverse 0 = .ok seed ∧
      decoderGo decChs dps 0 seed (ftrs.reverse.drop 1) = .ok out ∧
      ftrs.get? 0 = some f0 ∧ out.H = f0.H ∧ out.W = f0.W ∧
      out.H = S ∧ out.W = S := by
  have hn1 : 1 ≤ rest.length := List.length_pos.mpr hne
  obtain ⟨hlen, hidx, hpool⟩ :=
    encoderForward_shapes_of_ok (c0 :: rest) ps 0 x ftrs henc
  have hlen' : ftrs.length = rest.length := by simpa using hlen
  obtain ⟨fseed, hfseed, sB, sC, sH, sW⟩ := hidx (rest.length - 1) (by omega)
  obtain ⟨f0, hf0, f0B, f0C, f0H, f0W⟩ := hidx 0 (by omega)
  have hseedeq : listIdx ftrs.reverse 0 = .ok fseed := by
    unfold listIdx
    have hrev : ftrs.reverse.get? 0 = some fseed := by
      rw [List.get?_eq_getElem?, List.getElem?_reverse (by omega), hlen']
      have hfseed' : ftrs[rest.length - 1]? = some fseed := by
        rw [← List.get?_eq_getElem?]
        exact hfseed
      simpa using hfseed'
    rw [hrev]
  have hpoolseed := hpool (rest.length - 1) (by simp; omega)
  obtain ⟨out, hdec, outB, outC, outH, outW⟩ :=
    decoderGo_ok decChs dps 0 fseed (ftrs.reverse.drop 1)
      (by rw [sH]; omega) (by rw [sW]; omega)
      (by
        intro c cs hc
        have h0 : decChs.get? 0 = some c := by rw [hc]; rfl
        rw [hmatch, List.get?_eq_getElem?,
          List.getElem?_reverse (by omega)] at h0
        have hgd : rest.getD (rest.length - 1) 0 = c := by
          rw [List.getD_eq_getElem?_getD]
          have : rest.length - 1 - 0 = rest.length - 1 := by omega
          rw [this] at h0
          rw [h0]
          rfl
        have hsc : fseed.C = rest.getD (rest.length - 1) 0 := by
          simpa using sC
        rw [hsc, hgd])
      (by
        intro k a b ha hb
        have hab : a = 2 * b := hdbl k a b ha hb
        have hk1 : k + 1 < rest.length := by
          by_contra hcon
          push_neg at hcon
          rw [hmatch, List.get?_eq_getElem?] at hb
          rw [List.getElem?_eq_none (by simpa using hcon)] at hb
          exact Option.noConfusion hb
        rw [hmatch, List.get?_eq_getElem?,
          List.getElem?_reverse (by omega)] at hb
        have hidxb : rest.length - 1 - (k + 1) = rest.length - 2 - k := by
          omega
        rw [hidxb] at hb
        obtain ⟨f, hf, fB, fC, fH, fW⟩ := hidx (rest.length - 2 - k) (by omega)
        have hfC : f.C = b := by
          have hge : rest.getD (rest.length - 2 - k) 0 = b := by
            rw [List.getD_eq_getElem?_getD, hb]
            rfl
          have : f.C = rest.getD (rest.length - 2 - k) 0 := by simpa using fC
          rw [this, hge]
        refine ⟨f, ?_, by omega, by omega⟩
        rw [Nat.zero_add, List.get?_eq_getElem?, List.getElem?_drop,
          List.getElem?_reverse (by omega), hlen']
        have : rest.length - 1 - (1 + k) = rest.length - 2 - k := by omega
        rw [this, ← List.get?_eq_getElem?]
        exact hf)
  have hdl : decChs.length = rest.length := by
    rw [hmatch, List.length_reverse]
  have hSH : out.H = S := by
    rw [outH, hdl, sH, hH]
    exact Nat.mul_div_cancel' hdvd
  have hSW : out.W = S := by
    rw [outW, hdl, sW, hW]
    exact Nat.mul_div_cancel' hdvd
  have hf0H : f0.H = S := by
    rw [f0H, hH]
    simp
  have hf0W : f0.W = S := by
    rw [f0W, hW]
    simp
  exact ⟨fseed, out, f0, hseedeq, hdec, hf0, by omega, by omega, hSH, hSW⟩

/-- Witness for C6: schedule [1, 1, 2] on a 4x4 input, decoder schedule
[2, 1]. -/
theorem decoder_roundtrip_spatial_size_witness :
    ∃ ftrs seed out f0,
      encoderForward [1, 1, 2] zeroUNetParams.encP 0 (zeros4 1 1 4 4) =
        .ok ftrs ∧
      listIdx ftrs.reverse 0 = .ok seed ∧
      decoderGo [2, 1] zeroUNetParams.decP 0 seed (ftrs.reverse.drop 1) =
        .ok out ∧
      ftrs.get? 0 = some f0 ∧ out.H = f0.H ∧ out.W = f0.W ∧
      out.H = 4 ∧ out.W = 4 := by
  obtain ⟨ftrs, he, _, _⟩ :=
    encoderForward_ok [1, 2] 1 zeroUNetParams.encP 0 (zeros4 1 1 4 4) rfl
      (by decide) (by decide) (by decide) (by decide)
  obtain ⟨seed, out, f0, h1, h2, h3, h4, h5, h6, h7⟩ :=
    decoder_roundtrip_spatial_size 1 [1, 2] [2, 1] zeroUNetParams.encP
      zeroUNetParams.decP (zeros4 1 1 4 4) 4 ftrs rfl rfl (by decide) he rfl
      (by
        intro k a b ha hb
        rcases k with _ | k1
        · simp at ha hb
          omega
        · rcases k1 with _ | k2
          · simp at hb
          · simp at hb)
      (by simp)
  exact ⟨ftrs, seed, out, f0, he, h1, h2, h3, h4, h5, h6, h7⟩
